import Mathlib

/-!
# Verification of the VAC ToD 2019 rating core

Shallow embedding of the data model and operations of the simplified VAC
(Veterans Affairs Canada) Table of Disabilities rating engine:

* `app_simplified/core/vac_data.py` — `VACDataManager`: search index
  construction, `find_condition`, `search_conditions`,
  `calculate_basic_rating`;
* `app_simplified/rating/vac_canada.py` — `VACRatingEngine`:
  `_assess_condition`, `_calculate_combined_rating`,
  `_assess_quality_of_life`, `_assess_functional_limitations`,
  `assess_case`.

Conventions of the embedding:

* Python strings are Lean `String`s; `str.lower()` is `pyLower`,
  `str.strip()` is `pyStrip`, and the Python substring test
  `pat in hay` is `strContainsSub hay pat` (code-point contiguous-run
  test), all defined over character lists so they evaluate in the kernel.
* Python dicts that carry fixed keys become Lean structures.  A key that a
  code path leaves absent and that callers read back with
  `dict.get(key, default)` is modelled by that default (noted per field).
* The fuzzywuzzy similarity scorers (`fuzz.ratio`, `fuzz.partial_ratio`,
  `fuzz.token_sort_ratio`) are opaque integer-valued parameters of the
  embedding, bundled in the `Fuzz` structure: every theorem below is
  proved for an arbitrary scorer, so nothing depends on their values.
* Python ints are `Nat`/`Int`; the float arithmetic of the combination
  formula is modelled over `ℚ`, with Python's banker's rounding
  `int(round mode)` modelled exactly by `pyRound` (round half to even).
* Dict iteration order in Python 3 is insertion order, so the indexes
  (`search_index`, `conditions_index`) are Lean lists in that order.
-/

namespace VAC

/-- Python `str.lower()`: per-character lower-casing.  Defined on the
character list so that it reduces in the kernel (Lean's `String.toLower`
goes through `String.mapAux`, which does not). -/
def pyLower (s : String) : String := ⟨s.toList.map Char.toLower⟩

/-- Python `str.strip()`: drop whitespace from both ends, defined on the
character list so that it reduces in the kernel (Lean's `String.trim`
goes through `Substring` position arithmetic, which does not). -/
def pyStrip (s : String) : String :=
  ⟨((s.toList.dropWhile Char.isWhitespace).reverse.dropWhile
      Char.isWhitespace).reverse⟩

/-- The Python substring test on code points: `charsStartWith p h` is
`h.startswith(p)` on character lists. -/
def charsStartWith : List Char → List Char → Bool
  | [], _ => true
  | _ :: _, [] => false
  | p :: ps, h :: hs => p = h && charsStartWith ps hs

/-- `charsContain hay pat` is the Python test `pat in hay` on character
lists: some contiguous run of `hay` equals `pat`. -/
def charsContain : List Char → List Char → Bool
  | [], pat => charsStartWith pat []
  | h :: t, pat => charsStartWith pat (h :: t) || charsContain t pat

/-- Python `pat in hay` for strings. -/
def strContainsSub (hay pat : String) : Bool :=
  charsContain hay.toList pat.toList

/-- The three fuzzywuzzy scorers used by `vac_data.py`, kept opaque:
`ratio`, `partial_ratio` and `token_sort_ratio`, each returning an
integer similarity score (0–100 in the library, unconstrained here). -/
structure Fuzz where
  ratio : String → String → Nat
  partialRatio : String → String → Nat
  tokenSortRatio : String → String → Nat

/-- A reference-store condition entry, as assembled by
`VACDataManager._build_indexes` (`vac_data.py` lines 74-85).  The
`rating_criteria`/`assessment_notes` payloads are carried opaquely by the
code and are irrelevant to every operation modelled here, so they are
dropped from the embedding. -/
structure Condition where
  id : String
  name : String
  chapter : String
  description : String
  symptoms : List String
  keywords : List String
deriving DecidableEq

/-- One entry of `VACDataManager.search_index`
(`_build_search_index`, `vac_data.py` lines 102-125). -/
structure IndexEntry where
  condition : Condition
  search_terms : List String
  primary_name : String
deriving DecidableEq

/-- `_build_search_index` body for one condition: terms are
`[name, description] + keywords + symptoms`, the falsy (empty) ones are
dropped, the rest are lower-cased then stripped; the primary name is the
lower-cased (not stripped) condition name (`vac_data.py` lines 108-125). -/
def buildIndexEntry (c : Condition) : IndexEntry :=
  { condition := c
    search_terms :=
      ((([c.name, c.description] ++ c.keywords) ++ c.symptoms).filter
        (fun t => t ≠ "")).map (fun t => pyStrip (pyLower t))
    primary_name := pyLower c.name }

/-- `VACDataManager._build_search_index` over the whole condition index,
in insertion order. -/
def build_search_index (conds : List Condition) : List IndexEntry :=
  conds.map buildIndexEntry

/-- Running state of the `find_condition` scan: the best match seen so
far (`best_match`) and its score (`best_score`). -/
structure ScanState where
  best : Option Condition
  score : Nat
deriving DecidableEq

/-- The inner loop of `find_condition` over one entry's `search_terms`
(`vac_data.py` lines 152-170): empty terms are skipped, an exact match
returns the condition immediately (`Except.error` models Python's early
`return`), otherwise the maximum of the three fuzzy scores updates the
running best when strictly larger. -/
def scanTerms (fz : Fuzz) (q : String) (c : Condition) :
    List String → ScanState → Except Condition ScanState
  | [], st => .ok st
  | t :: ts, st =>
    if t = "" then scanTerms fz q c ts st
    else if q = t then .error c
    else
      let s := max (fz.ratio q t) (max (fz.partialRatio q t) (fz.tokenSortRatio q t))
      scanTerms fz q c ts (if st.score < s then ⟨some c, s⟩ else st)

/-- The outer loop of `find_condition` over the search index
(`vac_data.py` lines 145-170): the primary-name `fuzz.ratio` score may
update the running best, then the term loop runs. -/
def scanEntries (fz : Fuzz) (q : String) :
    List IndexEntry → ScanState → Except Condition ScanState
  | [], st => .ok st
  | e :: es, st =>
    let ps := fz.ratio q e.primary_name
    let st1 := if st.score < ps then ScanState.mk (some e.condition) ps else st
    match scanTerms fz q e.condition e.search_terms st1 with
    | .error c => .error c
    | .ok st2 => scanEntries fz q es st2

/-- `VACDataManager.find_condition` (`vac_data.py` lines 127-177):
returns `none` for an empty query or empty index, otherwise lower-cases
and strips the query, scans every entry (early exact-match return),
and finally returns the best match iff its score reached `threshold`. -/
def find_condition (fz : Fuzz) (index : List IndexEntry)
    (condition_name : String) (threshold : Nat := 70) : Option Condition :=
  if condition_name = "" ∨ index = [] then none
  else
    match scanEntries fz (pyStrip (pyLower condition_name)) index ⟨none, 0⟩ with
    | .error c => some c
    | .ok st => if threshold ≤ st.score then st.best else none

/-- An element of the list returned by `search_conditions`
(`vac_data.py` lines 235-238): the condition (Python spreads
`**condition`) together with its `relevance_score`. -/
structure SearchResult where
  condition : Condition
  relevance_score : Nat
deriving DecidableEq

/-- The relevance score of one condition in `search_conditions`
(`vac_data.py` lines 220-232): maximum of the partial-ratio scores of the
query against the lower-cased name, description, and each symptom (0 when
there are no symptoms). -/
def relevance (fz : Fuzz) (q : String) (c : Condition) : Nat :=
  let name_score := fz.partialRatio q (pyLower c.name)
  let desc_score := fz.partialRatio q (pyLower c.description)
  let max_symptom_score :=
    (c.symptoms.map (fun s => fz.partialRatio q (pyLower s))).foldr max 0
  max name_score (max desc_score max_symptom_score)

/-- The chapter filter of `search_conditions` (`vac_data.py` line 217):
`if chapter and condition.get("chapter") != chapter: continue`.  A falsy
(absent or empty) chapter argument is modelled as `none`. -/
def chapterOk (chapter : Option String) (c : Condition) : Bool :=
  match chapter with
  | none => true
  | some ch => c.chapter = ch

/-- Stable insertion of a search result into a list sorted by descending
`relevance_score`: the new element goes before the first strictly smaller
score, after existing ties. -/
def insertByScore (x : SearchResult) : List SearchResult → List SearchResult
  | [] => [x]
  | y :: ys =>
    if y.relevance_score ≤ x.relevance_score then x :: y :: ys
    else y :: insertByScore x ys

/-- Stable sort by descending `relevance_score`, modelling the Python
`results.sort(key=..., reverse=True)` (`vac_data.py` line 241); Python's
sort is stable, and any stable sort by descending score produces the same
list. -/
def sortByScoreDesc : List SearchResult → List SearchResult
  | [] => []
  | x :: xs => insertByScore x (sortByScoreDesc xs)

/-- `VACDataManager.search_conditions` (`vac_data.py` lines 192-242) with
the fixed inclusion threshold (the literal `50` of line 234) generalised
to the parameter `inclusion`: conditions passing the chapter filter whose
relevance is strictly above the threshold, sorted by descending
relevance, truncated to `limit`. -/
def search_conditions_at (fz : Fuzz) (conds : List Condition)
    (inclusion : Nat) (query : String) (chapter : Option String)
    (limit : Nat) : List SearchResult :=
  if query = "" then []
  else
    (sortByScoreDesc (conds.filterMap (fun c =>
      if chapterOk chapter c then
        if inclusion < relevance fz (pyStrip (pyLower query)) c then
          some ⟨c, relevance fz (pyStrip (pyLower query)) c⟩
        else none
      else none))).take limit

/-- `VACDataManager.search_conditions` exactly as in the source: the
inclusion threshold is the fixed literal `50`. -/
def search_conditions (fz : Fuzz) (conds : List Condition) (query : String)
    (chapter : Option String) (limit : Nat) : List SearchResult :=
  search_conditions_at fz conds 50 query chapter limit

/-- The severity→base-rating table of `calculate_basic_rating`
(`vac_data.py` lines 301-311), including the `.get(..., 20)` default for
unrecognized labels; the argument is the already lower-cased severity. -/
def severity_ratings (s : String) : Nat :=
  if s = "minimal" then 5
  else if s = "mild" then 10
  else if s = "moderate" then 30
  else if s = "moderately_severe" then 50
  else if s = "severe" then 70
  else if s = "very_severe" then 90
  else if s = "total" then 100
  else 20

/-- Result dict of `VACDataManager.calculate_basic_rating`
(`vac_data.py` lines 279-329).  In the not-found branch the Python dict
carries no `base_rating`/`symptom_adjustment` keys (`none` here) and no
`symptoms_considered` key (`[]` here, the default callers read back);
the opaque `chapter`/`condition_id`/`tod_criteria` fields are dropped. -/
structure RatingResult where
  condition : String
  found : Bool
  rating : Nat
  base_rating : Option Nat
  symptom_adjustment : Option Nat
  rationale : String
  symptoms_considered : List String
deriving DecidableEq

/-- `VACDataManager.calculate_basic_rating` (`vac_data.py` lines
279-329): resolve the name through `find_condition` (default threshold
70); if unresolved, rating 0 with a not-found rationale; otherwise
`min(base(severity.lower()) + min(2*len(symptoms), 20), 100)`. -/
def calculate_basic_rating (fz : Fuzz) (index : List IndexEntry)
    (condition_name severity : String) (symptoms : List String) :
    RatingResult :=
  match find_condition fz index condition_name 70 with
  | none =>
    { condition := condition_name
      found := false
      rating := 0
      base_rating := none
      symptom_adjustment := none
      rationale := "Condition '" ++ condition_name ++ "' not found in VAC ToD 2019"
      symptoms_considered := [] }
  | some c =>
    let base_rating := severity_ratings (pyLower severity)
    let symptom_adjustment := min (symptoms.length * 2) 20
    { condition := c.name
      found := true
      rating := min (base_rating + symptom_adjustment) 100
      base_rating := some base_rating
      symptom_adjustment := some symptom_adjustment
      rationale := "Base rating " ++ toString base_rating ++ "% for " ++
        severity ++ " severity, adjusted +" ++ toString symptom_adjustment ++
        "% for " ++ toString symptoms.length ++ " symptoms"
      symptoms_considered := symptoms }

/-- A condition of a case as supplied by the caller
(`vac_canada.py` lines 74-76): free-text name, severity label, symptom
list.  The same shape is used for pre-existing conditions, whose content
the engine never reads. -/
structure CaseCondition where
  name : String
  severity : String
  symptoms : List String
deriving DecidableEq

/-- The per-condition assessment dict built by
`VACRatingEngine._assess_condition` (`vac_canada.py` lines 71-124),
restricted to the fields the downstream calculations read: `condition`,
`tod_found`, `rating`, the rationale text (`rationale` in the not-found
branch, `rating_rationale` in the found branch) and `chapter`.  The
medical-evidence and criteria fields never feed back into any rating, so
they are dropped from the embedding. -/
structure Assessment where
  condition : String
  tod_found : Bool
  rating : Nat
  rationale : String
  chapter : String
deriving DecidableEq

/-- `VACRatingEngine._assess_condition` (`vac_canada.py` lines 71-124):
resolve via `find_condition`; if unresolved, a 0-rated not-found
assessment with chapter `"unknown"`; otherwise the rating and rationale
of `calculate_basic_rating` on the same name, severity and symptoms. -/
def assess_condition (fz : Fuzz) (index : List IndexEntry)
    (cc : CaseCondition) : Assessment :=
  match find_condition fz index cc.name 70 with
  | none =>
    { condition := cc.name
      tod_found := false
      rating := 0
      rationale := "Condition '" ++ cc.name ++ "' not found in VAC ToD 2019"
      chapter := "unknown" }
  | some tod =>
    let rr := calculate_basic_rating fz index cc.name cc.severity cc.symptoms
    { condition := cc.name
      tod_found := true
      rating := rr.rating
      rationale := rr.rationale
      chapter := tod.chapter }

/-- One step of the VAC combination formula
(`vac_canada.py` line 169): `combined + rating - combined*rating/100`,
over exact rationals. -/
def combineStep (c r : ℚ) : ℚ := c + r - c * r / 100

/-- The fold of the combination formula over an ordered rating list: the
first rating seeds the accumulator (`vac_canada.py` lines 167-169). -/
def combineList : List ℚ → ℚ
  | [] => 0
  | r :: rs => rs.foldl combineStep r

/-- Python's `round` on a non-negative value as used in
`int(round(total_rating))` (`vac_canada.py` line 171): round half to
even (banker's rounding), as an exact function on `ℚ`. -/
def pyRound (q : ℚ) : Int :=
  if q - ⌊q⌋ < 1 / 2 then ⌊q⌋
  else if 1 / 2 < q - ⌊q⌋ then ⌊q⌋ + 1
  else if ⌊q⌋ % 2 = 0 then ⌊q⌋ else ⌊q⌋ + 1

/-- The combined-rating dict of `VACRatingEngine._calculate_combined_rating`
(`vac_canada.py` lines 148-196), restricted to the fields the claims
read.  The two early-return dicts carry no `pct_applied` and no
`individual_ratings` keys; callers read `pct_applied` back with
`.get("pct_applied", False)`, so the absent key is modelled as `false`
(and the absent rating list as `[]`). -/
structure CombinedRating where
  total_rating : Int
  individual_ratings : List Nat
  method : String
  pct_applied : Bool
  confidence : String
deriving DecidableEq

/-- `VACRatingEngine._calculate_combined_rating` (`vac_canada.py` lines
148-196): empty input → `"no_conditions"`; no condition with
`tod_found` → `"no_valid_conditions"`; a single valid rating is taken
as-is (`"single_condition"`, confidence `"high"`); several are folded
through the combination formula and rounded
(`"vac_combination_formula"`, confidence `"medium"`).  A non-empty
pre-existing list sets `pct_applied` and forces confidence `"medium"`
without touching the rating; finally `min 100` clamps the total. -/
def calculate_combined_rating (conds : List Assessment)
    (pre_existing : List CaseCondition) : CombinedRating :=
  if conds = [] then
    { total_rating := 0, individual_ratings := [], method := "no_conditions",
      pct_applied := false, confidence := "low" }
  else if (conds.filter (fun c => c.tod_found)).map (fun c => c.rating) = [] then
    { total_rating := 0, individual_ratings := [],
      method := "no_valid_conditions", pct_applied := false,
      confidence := "low" }
  else if ((conds.filter (fun c => c.tod_found)).map (fun c => c.rating)).length = 1 then
    { total_rating :=
        min 100 (((((conds.filter (fun c => c.tod_found)).map
          (fun c => c.rating)).headD 0 : Nat) : Int))
      individual_ratings := (conds.filter (fun c => c.tod_found)).map (fun c => c.rating)
      method := "single_condition"
      pct_applied := !pre_existing.isEmpty
      confidence := if pre_existing.isEmpty then "high" else "medium" }
  else
    { total_rating :=
        min 100 (pyRound (combineList (((conds.filter (fun c => c.tod_found)).map
          (fun c => c.rating)).map (fun n : Nat => (n : ℚ)))))
      individual_ratings := (conds.filter (fun c => c.tod_found)).map (fun c => c.rating)
      method := "vac_combination_formula"
      pct_applied := !pre_existing.isEmpty
      confidence := "medium" }

/-- The fixed impact-level thresholds of
`VACRatingEngine._assess_quality_of_life` (`vac_canada.py` lines
221-228). -/
def impact_level_of (total : Nat) : String :=
  if 75 ≤ total then "severe"
  else if 50 ≤ total then "moderate_to_severe"
  else if 25 ≤ total then "moderate"
  else "mild"

/-- Category term lists of `_assess_functional_limitations`
(`vac_canada.py` lines 263-271). -/
def mental_terms : List String := ["mental", "ptsd", "anxiety", "depression"]

/-- Back/spine terms (`vac_canada.py` line 265). -/
def back_terms : List String := ["back", "spine", "lumbar"]

/-- Knee/leg/hip terms (`vac_canada.py` line 267). -/
def knee_terms : List String := ["knee", "leg", "hip"]

/-- Shoulder/arm/hand terms (`vac_canada.py` line 269). -/
def shoulder_terms : List String := ["shoulder", "arm", "hand"]

/-- Neck/cervical terms (`vac_canada.py` line 271). -/
def neck_terms : List String := ["neck", "cervical"]

/-- The `if/elif` category chain of `_assess_functional_limitations`
(`vac_canada.py` lines 263-272) on an already lower-cased condition name:
the first category with a term occurring in the name contributes its
limitation set; later categories are never reached. -/
def category_limitations (name : String) : List String :=
  if mental_terms.any (fun t => strContainsSub name t) then
    ["concentration", "memory", "social_interaction", "decision_making"]
  else if back_terms.any (fun t => strContainsSub name t) then
    ["mobility", "lifting", "prolonged_sitting", "bending"]
  else if knee_terms.any (fun t => strContainsSub name t) then
    ["walking", "standing", "climbing", "running"]
  else if shoulder_terms.any (fun t => strContainsSub name t) then
    ["reaching", "grasping", "lifting", "fine_motor"]
  else if neck_terms.any (fun t => strContainsSub name t) then
    ["neck_movement", "concentration", "headaches"]
  else []

/-- One loop iteration of `_assess_functional_limitations`
(`vac_canada.py` lines 254-272) on the accumulated Python set: skip
conditions without `tod_found`, and for those rated at least 50 union in
the limitation set of the first matching category of the lower-cased
name. -/
def limitations_step (acc : Finset String) (c : Assessment) : Finset String :=
  if c.tod_found && decide (50 ≤ c.rating) then
    acc ∪ (category_limitations (pyLower c.condition)).toFinset
  else acc

/-- `VACRatingEngine._assess_functional_limitations` (`vac_canada.py`
lines 250-274): fold the conditions into a set of limitation tags and
return `sorted(list(...))` — the ascending sorted, duplicate-free list. -/
def assess_functional_limitations (conds : List Assessment) : List String :=
  (conds.foldl limitations_step ∅).sort (· ≤ ·)

/-- The quality-of-life dict of `_assess_quality_of_life`
(`vac_canada.py` lines 215-248), restricted to the fields the claims
read (the recommendation texts and assessment-factor booleans are
presentation-only). -/
structure QolResult where
  impact_level : String
  total_rating : Nat
  condition_count : Nat
  functional_limitations : List String
deriving DecidableEq

/-- `VACRatingEngine._assess_quality_of_life` (`vac_canada.py` lines
215-248): `total_rating` is the SUM of the individual ratings of the
conditions with `tod_found` (line 217), and the impact level applies the
fixed thresholds to that sum. -/
def assess_quality_of_life (conds : List Assessment) : QolResult :=
  { impact_level :=
      impact_level_of (((conds.filter (fun c => c.tod_found)).map
        (fun c => c.rating)).sum)
    total_rating := ((conds.filter (fun c => c.tod_found)).map
      (fun c => c.rating)).sum
    condition_count := (conds.filter (fun c => c.tod_found)).length
    functional_limitations := assess_functional_limitations conds }

/-- The case-assessment dict of `VACRatingEngine.assess_case`
(`vac_canada.py` lines 55-65), restricted to the computed fields (the
`case_id`/`assessment_date`/`tod_version` pass-throughs and the
recommendation texts are dropped). -/
structure CaseAssessment where
  total_disability_rating : Int
  individual_conditions : List Assessment
  combined_rating_breakdown : CombinedRating
  quality_of_life_impact : QolResult
  assessment_confidence : String
deriving DecidableEq

/-- `VACRatingEngine.assess_case` (`vac_canada.py` lines 30-69): assess
every condition, combine, and derive the quality-of-life impact from the
assessed conditions. -/
def assess_case (fz : Fuzz) (index : List IndexEntry)
    (conditions : List CaseCondition) (pre_existing : List CaseCondition) :
    CaseAssessment :=
  let assessed := conditions.map (assess_condition fz index)
  let combined := calculate_combined_rating assessed pre_existing
  { total_disability_rating := combined.total_rating
    individual_conditions := assessed
    combined_rating_breakdown := combined
    quality_of_life_impact := assess_quality_of_life assessed
    assessment_confidence := combined.confidence }

/-! ## Helper lemmas: banker's rounding -/

theorem pyRound_ge_floor (q : ℚ) : (⌊q⌋ : ℤ) ≤ pyRound q := by
  unfold pyRound
  split_ifs <;> omega

theorem pyRound_le_floor_add_one (q : ℚ) : pyRound q ≤ ⌊q⌋ + 1 := by
  unfold pyRound
  split_ifs <;> omega

theorem pyRound_nonneg {q : ℚ} (h : 0 ≤ q) : 0 ≤ pyRound q := by
  have h1 : (0 : ℤ) ≤ ⌊q⌋ := Int.floor_nonneg.mpr h
  have h2 := pyRound_ge_floor q
  omega

theorem pyRound_mono {a b : ℚ} (hab : a ≤ b) : pyRound a ≤ pyRound b := by
  have hfl : ⌊a⌋ ≤ ⌊b⌋ := Int.floor_mono hab
  rcases eq_or_lt_of_le hfl with heq | hlt
  · have hcast : ((⌊a⌋ : ℚ)) = ((⌊b⌋ : ℚ)) := by exact_mod_cast heq
    have hfr : a - (⌊a⌋ : ℚ) ≤ b - (⌊b⌋ : ℚ) := by
      rw [hcast]
      linarith
    unfold pyRound
    rw [heq]
    rw [hcast] at hfr
    split_ifs <;> first | omega | (exfalso; linarith)
  · have h1 := pyRound_le_floor_add_one a
    have h2 := pyRound_ge_floor b
    omega

theorem pyRound_hundred : pyRound 100 = 100 := by norm_num [pyRound]

/-! ## Helper lemmas: the combination formula -/

theorem combineStep_ge_left {c r : ℚ} (hc1 : c ≤ 100) (hr0 : 0 ≤ r) :
    c ≤ combineStep c r := by
  unfold combineStep
  nlinarith

theorem combineStep_le_hundred {c r : ℚ} (hc1 : c ≤ 100) (hr1 : r ≤ 100) :
    combineStep c r ≤ 100 := by
  unfold combineStep
  nlinarith

theorem foldl_combine_bounds :
    ∀ (rs : List ℚ) (c : ℚ), 0 ≤ c → c ≤ 100 →
      (∀ r ∈ rs, 0 ≤ r ∧ r ≤ 100) →
      c ≤ rs.foldl combineStep c ∧ rs.foldl combineStep c ≤ 100 := by
  intro rs
  induction rs with
  | nil => intro c h0 h1 _; exact ⟨le_refl c, h1⟩
  | cons r rs ih =>
    intro c h0 h1 hall
    have hr := hall r (List.mem_cons_self r rs)
    have hstep1 : c ≤ combineStep c r := combineStep_ge_left h1 hr.1
    have hstep2 : combineStep c r ≤ 100 := combineStep_le_hundred h1 hr.2
    have hstep0 : 0 ≤ combineStep c r := le_trans h0 hstep1
    have ihs := ih (combineStep c r) hstep0 hstep2
      (fun x hx => hall x (List.mem_cons_of_mem r hx))
    exact ⟨le_trans hstep1 ihs.1, ihs.2⟩

theorem combineList_bounds {rs : List ℚ}
    (h : ∀ r ∈ rs, 0 ≤ r ∧ r ≤ 100) :
    0 ≤ combineList rs ∧ combineList rs ≤ 100 := by
  cases rs with
  | nil => norm_num [combineList]
  | cons r rs =>
    have hr := h r (List.mem_cons_self r rs)
    have := foldl_combine_bounds rs r hr.1 hr.2
      (fun x hx => h x (List.mem_cons_of_mem r hx))
    exact ⟨le_trans hr.1 this.1, this.2⟩

theorem combineList_append_ge {rs : List ℚ} {x : ℚ}
    (h : ∀ r ∈ rs, 0 ≤ r ∧ r ≤ 100) (hx0 : 0 ≤ x) :
    combineList rs ≤ combineList (rs ++ [x]) := by
  cases rs with
  | nil => simpa [combineList] using hx0
  | cons r rs =>
    have hr := h r (List.mem_cons_self r rs)
    have hb := foldl_combine_bounds rs r hr.1 hr.2
      (fun y hy => h y (List.mem_cons_of_mem r hy))
    have : combineList ((r :: rs) ++ [x]) =
        combineStep (rs.foldl combineStep r) x := by
      simp [combineList, List.foldl_append]
    rw [this]
    exact combineStep_ge_left hb.2 hx0

/-! ## Helper lemmas: the `find_condition` scan -/

theorem scanTerms_error_sound (fz : Fuzz) (q : String) (c : Condition) :
    ∀ (ts : List String) (st : ScanState) (c' : Condition),
      scanTerms fz q c ts st = .error c' →
        c' = c ∧ q ∈ ts ∧ q ≠ "" := by
  intro ts
  induction ts with
  | nil => intro st c' h; simp [scanTerms] at h
  | cons t ts ih =>
    intro st c' h
    simp only [scanTerms] at h
    split_ifs at h with h1 h2 h3
    · obtain ⟨hc, hm, hq⟩ := ih st c' h
      exact ⟨hc, List.mem_cons_of_mem t hm, hq⟩
    · injection h with h'
      refine ⟨h'.symm, ?_, ?_⟩
      · rw [h2]; exact List.mem_cons_self t ts
      · rw [h2]; exact h1
    · obtain ⟨hc, hm, hq⟩ := ih _ c' h
      exact ⟨hc, List.mem_cons_of_mem t hm, hq⟩
    · obtain ⟨hc, hm, hq⟩ := ih _ c' h
      exact ⟨hc, List.mem_cons_of_mem t hm, hq⟩

theorem scanTerms_exact (fz : Fuzz) (q : String) (c : Condition) :
    ∀ (ts : List String) (st : ScanState), q ∈ ts → q ≠ "" →
      scanTerms fz q c ts st = .error c := by
  intro ts
  induction ts with
  | nil => intro st h _; exact absurd h (List.not_mem_nil q)
  | cons t ts ih =>
    intro st hm hq
    simp only [scanTerms]
    rcases List.mem_cons.mp hm with he | hm'
    · rw [← he]
      rw [if_neg hq, if_pos rfl]
    · by_cases ht : t = ""
      · rw [if_pos ht]; exact ih st hm' hq
      · by_cases hqt : q = t
        · rw [if_neg ht, if_pos hqt]
        · rw [if_neg ht, if_neg hqt]; exact ih _ hm' hq

theorem scanEntries_error_sound (fz : Fuzz) (q : String) :
    ∀ (es : List IndexEntry) (st : ScanState) (c : Condition),
      scanEntries fz q es st = .error c →
        ∃ e ∈ es, e.condition = c ∧ q ∈ e.search_terms ∧ q ≠ "" := by
  intro es
  induction es with
  | nil => intro st c h; simp [scanEntries] at h
  | cons e es ih =>
    intro st c h
    simp only [scanEntries] at h
    split at h
    next c0 heq =>
      injection h with h'
      obtain ⟨hc, hm, hq⟩ := scanTerms_error_sound fz q e.condition _ _ _ heq
      exact ⟨e, List.mem_cons_self e es, by rw [← h', hc], hm, hq⟩
    next st2 heq =>
      obtain ⟨e', he', rest⟩ := ih st2 c h
      exact ⟨e', List.mem_cons_of_mem e he', rest⟩

theorem scanEntries_exact (fz : Fuzz) (q : String) :
    ∀ (es : List IndexEntry) (st : ScanState),
      (∃ e ∈ es, q ∈ e.search_terms) → q ≠ "" →
        ∃ c, scanEntries fz q es st = .error c := by
  intro es
  induction es with
  | nil =>
    intro st h _
    obtain ⟨e, he, _⟩ := h
    exact absurd he (List.not_mem_nil e)
  | cons e es ih =>
    intro st hex hq
    obtain ⟨e', he', hm⟩ := hex
    simp only [scanEntries]
    rcases List.mem_cons.mp he' with he0 | hmem
    · rw [← he0] at *
      rw [scanTerms_exact fz q e'.condition e'.search_terms _ hm hq]
      exact ⟨e'.condition, rfl⟩
    · cases hst : scanTerms fz q e.condition e.search_terms
        (if st.score < fz.ratio q e.primary_name then
          ScanState.mk (some e.condition) (fz.ratio q e.primary_name)
        else st) with
      | error c0 => exact ⟨c0, rfl⟩
      | ok st2 => exact ih st2 ⟨e', hmem, hm⟩ hq

/-! ## Helper lemmas: the stable descending sort of `search_conditions` -/

/-- Descending order on scores, the invariant of `sortByScoreDesc`. -/
def ScoreDesc (L : List SearchResult) : Prop :=
  L.Pairwise (fun a b => b.relevance_score ≤ a.relevance_score)

theorem mem_insertByScore {z x : SearchResult} :
    ∀ {L : List SearchResult}, z ∈ insertByScore x L ↔ z = x ∨ z ∈ L := by
  intro L
  induction L with
  | nil => simp [insertByScore]
  | cons y ys ih =>
    simp only [insertByScore]
    split_ifs with h
    · simp [or_comm, or_left_comm, or_assoc]
    · simp only [List.mem_cons, ih]
      tauto

theorem insertByScore_scoreDesc {x : SearchResult} :
    ∀ {L : List SearchResult}, ScoreDesc L → ScoreDesc (insertByScore x L) := by
  intro L
  induction L with
  | nil => intro _; simp [insertByScore, ScoreDesc]
  | cons y ys ih =>
    intro hL
    rw [ScoreDesc, List.pairwise_cons] at hL
    simp only [insertByScore]
    split_ifs with h
    · rw [ScoreDesc, List.pairwise_cons]
      constructor
      · intro z hz
        rcases List.mem_cons.mp hz with rfl | hz'
        · exact h
        · exact le_trans (hL.1 z hz') h
      · rw [ScoreDesc] at *
        exact List.Pairwise.cons hL.1 hL.2
    · rw [ScoreDesc, List.pairwise_cons]
      constructor
      · intro z hz
        rcases mem_insertByScore.mp hz with rfl | hz'
        · exact le_of_lt (lt_of_not_le h)
        · exact hL.1 z hz'
      · exact ih hL.2

theorem sortByScoreDesc_scoreDesc :
    ∀ (L : List SearchResult), ScoreDesc (sortByScoreDesc L) := by
  intro L
  induction L with
  | nil => simp [sortByScoreDesc, ScoreDesc]
  | cons x xs ih => exact insertByScore_scoreDesc ih

theorem insertByScore_eq_cons {x : SearchResult} {M : List SearchResult}
    (h : ∀ z ∈ M, z.relevance_score ≤ x.relevance_score) :
    insertByScore x M = x :: M := by
  cases M with
  | nil => rfl
  | cons y ys =>
    simp only [insertByScore]
    rw [if_pos (h y (List.mem_cons_self y ys))]

theorem filter_insertByScore (p : SearchResult → Bool) {x : SearchResult} :
    ∀ {L : List SearchResult}, ScoreDesc L →
      (insertByScore x L).filter p =
        if p x then insertByScore x (L.filter p) else L.filter p := by
  intro L
  induction L with
  | nil =>
    intro _
    by_cases hp : p x = true <;> simp [insertByScore, List.filter, hp]
  | cons y ys ih =>
    intro hL
    rw [ScoreDesc, List.pairwise_cons] at hL
    by_cases h : y.relevance_score ≤ x.relevance_score
    · have hins : insertByScore x (y :: ys) = x :: y :: ys := by
        simp only [insertByScore]
        rw [if_pos h]
      rw [hins]
      by_cases hp : p x = true
      · have hall : ∀ z ∈ (y :: ys).filter p,
            z.relevance_score ≤ x.relevance_score := by
          intro z hz
          have hz' := List.mem_of_mem_filter hz
          rcases List.mem_cons.mp hz' with rfl | hzy
          · exact h
          · exact le_trans (hL.1 z hzy) h
        rw [List.filter_cons_of_pos hp, if_pos hp, insertByScore_eq_cons hall]
      · rw [List.filter_cons_of_neg hp, if_neg hp]
    · have hins : insertByScore x (y :: ys) = y :: insertByScore x ys := by
        simp only [insertByScore]
        rw [if_neg h]
      rw [hins]
      by_cases hp : p y = true
      · rw [List.filter_cons_of_pos hp, ih hL.2, List.filter_cons_of_pos hp]
        by_cases hpx : p x = true
        · rw [if_pos hpx, if_pos hpx]
          have hswap : insertByScore x (y :: List.filter p ys) =
              y :: insertByScore x (List.filter p ys) := by
            simp only [insertByScore]
            rw [if_neg h]
          rw [hswap]
        · rw [if_neg hpx, if_neg hpx]
      · rw [List.filter_cons_of_neg hp, ih hL.2, List.filter_cons_of_neg hp]

theorem sortByScoreDesc_filter (p : SearchResult → Bool) :
    ∀ (L : List SearchResult),
      sortByScoreDesc (L.filter p) = (sortByScoreDesc L).filter p := by
  intro L
  induction L with
  | nil => rfl
  | cons x xs ih =>
    simp only [sortByScoreDesc]
    rw [filter_insertByScore p (sortByScoreDesc_scoreDesc xs)]
    cases hp : p x with
    | true =>
      rw [List.filter_cons_of_pos hp, if_pos rfl]
      simp only [sortByScoreDesc]
      rw [ih]
    | false =>
      rw [List.filter_cons_of_neg (by simp [hp]), if_neg (by simp), ih]

theorem filter_eq_nil_of_scoreDesc_head {t : Nat} {y : SearchResult}
    {ys : List SearchResult}
    (hy : ∀ z ∈ ys, z.relevance_score ≤ y.relevance_score)
    (h : ¬ t < y.relevance_score) :
    (y :: ys).filter (fun z => decide (t < z.relevance_score)) = [] := by
  rw [List.filter_eq_nil_iff]
  intro z hz
  rcases List.mem_cons.mp hz with rfl | hz'
  · simpa using h
  · have := hy z hz'
    simp only [decide_eq_true_eq]
    omega

theorem mem_take_filter {t : Nat} :
    ∀ (M : List SearchResult) (n : Nat) (x : SearchResult), ScoreDesc M →
      x ∈ (M.filter (fun z => decide (t < z.relevance_score))).take n →
        x ∈ M.take n := by
  intro M
  induction M with
  | nil => intro n x _ h; simp at h
  | cons y ys ih =>
    intro n x hM h
    rw [ScoreDesc, List.pairwise_cons] at hM
    cases n with
    | zero => simp at h
    | succ m =>
      by_cases hy : t < y.relevance_score
      · rw [List.filter_cons_of_pos (by simpa using hy), List.take_succ_cons,
          List.mem_cons] at h
        rcases h with rfl | h'
        · exact List.mem_cons_self x _
        · exact List.mem_cons_of_mem y (ih m x hM.2 h')
      · rw [filter_eq_nil_of_scoreDesc_head hM.1 hy] at h
        simp at h

theorem search_filterMap_monotone (fz : Fuzz) (q : String)
    (chapter : Option String) {t1 t2 : Nat} (h : t1 ≤ t2) :
    ∀ (conds : List Condition),
      conds.filterMap (fun c =>
        if chapterOk chapter c then
          if t2 < relevance fz q c then
            some (SearchResult.mk c (relevance fz q c))
          else none
        else none) =
      (conds.filterMap (fun c =>
        if chapterOk chapter c then
          if t1 < relevance fz q c then
            some (SearchResult.mk c (relevance fz q c))
          else none
        else none)).filter (fun z => decide (t2 < z.relevance_score)) := by
  intro conds
  induction conds with
  | nil => rfl
  | cons c cs ih =>
    simp only [List.filterMap_cons]
    by_cases hch : chapterOk chapter c
    · rw [if_pos hch, if_pos hch]
      by_cases h2 : t2 < relevance fz q c
      · have h1 : t1 < relevance fz q c := lt_of_le_of_lt h h2
        rw [if_pos h2, if_pos h1]
        rw [List.filter_cons_of_pos (by simpa using h2)]
        rw [ih]
      · rw [if_neg h2]
        by_cases h1 : t1 < relevance fz q c
        · rw [if_pos h1]
          rw [List.filter_cons_of_neg (by simpa using h2)]
          exact ih
        · rw [if_neg h1]
          exact ih
    · rw [if_neg hch, if_neg hch]
      exact ih

/-! ## Helper lemmas: the functional-limitations fold -/

theorem mem_foldl_limitations :
    ∀ (conds : List Assessment) (acc : Finset String) (x : String),
      x ∈ conds.foldl limitations_step acc ↔
        x ∈ acc ∨ ∃ c ∈ conds,
          (c.tod_found && decide (50 ≤ c.rating)) = true ∧
            x ∈ category_limitations (pyLower c.condition) := by
  intro conds
  induction conds with
  | nil => simp
  | cons c cs ih =>
    intro acc x
    simp only [List.foldl_cons]
    rw [ih]
    unfold limitations_step
    by_cases h : (c.tod_found && decide (50 ≤ c.rating)) = true
    · rw [if_pos h]
      simp only [Finset.mem_union, List.mem_toFinset, List.mem_cons]
      constructor
      · rintro (⟨ha | hcat⟩ | ⟨c', hc', hq, hx⟩)
        · exact Or.inl ha
        · exact Or.inr ⟨c, Or.inl rfl, h, hcat⟩
        · exact Or.inr ⟨c', Or.inr hc', hq, hx⟩
      · rintro (ha | ⟨c', (rfl | hc'), hq, hx⟩)
        · exact Or.inl (Or.inl ha)
        · exact Or.inl (Or.inr hx)
        · exact Or.inr ⟨c', hc', hq, hx⟩
    · rw [if_neg h]
      simp only [List.mem_cons]
      constructor
      · rintro (ha | ⟨c', hc', hq, hx⟩)
        · exact Or.inl ha
        · exact Or.inr ⟨c', Or.inr hc', hq, hx⟩
      · rintro (ha | ⟨c', (rfl | hc'), hq, hx⟩)
        · exact Or.inl ha
        · exact absurd hq h
        · exact Or.inr ⟨c', hc', hq, hx⟩

/-! ## Concrete fixtures for witnesses -/

/-- A scorer that gives every pair similarity 0; concrete instantiations
then exercise exactly the exact-match paths. -/
def fzZero : Fuzz := ⟨fun _ _ => 0, fun _ _ => 0, fun _ _ => 0⟩

/-- A scorer whose partial-ratio is the constant 70. -/
def fzSeventy : Fuzz := ⟨fun _ _ => 0, fun _ _ => 70, fun _ _ => 0⟩

/-- A sample reference-store entry. -/
def condPTSD : Condition :=
  { id := "21.01", name := "PTSD", chapter := "21"
    description := "post-traumatic stress disorder"
    symptoms := ["nightmares"], keywords := ["ptsd"] }

/-- A second sample reference-store entry. -/
def condBack : Condition :=
  { id := "17.03", name := "Lower Back Strain", chapter := "17"
    description := "chronic lumbar strain"
    symptoms := ["pain"], keywords := ["back pain"] }

/-- The search index over the two sample conditions. -/
def sampleIndex : List IndexEntry := build_search_index [condPTSD, condBack]

/-- A sample case condition resolving to `condPTSD` and rating 40
(base 30 for "moderate", +10 for 5 symptoms). -/
def ccPTSD : CaseCondition :=
  ⟨"PTSD", "moderate", ["s1", "s2", "s3", "s4", "s5"]⟩

/-- A sample case condition resolving to `condBack` and rating 40. -/
def ccBack : CaseCondition :=
  ⟨"Lower Back Strain", "moderate", ["t1", "t2", "t3", "t4", "t5"]⟩

/-! ## Claim C2 -/

/-- C2, counterexample: the claim says a case contributing zero valid
ratings — *including an empty condition list* — yields method
`"no_valid_conditions"`, but on the empty list
`_calculate_combined_rating` returns early with method
`"no_conditions"` (`vac_canada.py` lines 150-151). -/
theorem C2_counterexample :
    calculate_combined_rating [] [] =
      { total_rating := 0, individual_ratings := [],
        method := "no_conditions", pct_applied := false,
        confidence := "low" } ∧
    "no_conditions" ≠ "no_valid_conditions" :=
  ⟨by decide, by decide⟩

/-- C2, amended: whenever no condition resolved, the combined rating is
0 with confidence `"low"` and no pct flag; the method is
`"no_conditions"` for an empty input list and `"no_valid_conditions"`
for a non-empty one. -/
theorem C2_zero_valid_ratings (conds : List Assessment)
    (pre : List CaseCondition)
    (h : (conds.filter (fun c => c.tod_found)).map (fun c => c.rating) = []) :
    (calculate_combined_rating conds pre).total_rating = 0 ∧
    (calculate_combined_rating conds pre).confidence = "low" ∧
    (calculate_combined_rating conds pre).pct_applied = false ∧
    (calculate_combined_rating conds pre).method =
      (if conds = [] then "no_conditions" else "no_valid_conditions") := by
  by_cases hc : conds = []
  · subst hc
    refine ⟨rfl, rfl, rfl, rfl⟩
  · unfold calculate_combined_rating
    rw [if_neg hc, if_pos h, if_neg hc]
    exact ⟨rfl, rfl, rfl, rfl⟩

/-- C2, witness: a one-condition case whose condition did not resolve. -/
theorem C2_witness :
    (calculate_combined_rating [⟨"gout", false, 0, "r", "unknown"⟩] []).total_rating = 0 ∧
    (calculate_combined_rating [⟨"gout", false, 0, "r", "unknown"⟩] []).confidence = "low" ∧
    (calculate_combined_rating [⟨"gout", false, 0, "r", "unknown"⟩] []).pct_applied = false ∧
    (calculate_combined_rating [⟨"gout", false, 0, "r", "unknown"⟩] []).method =
      (if ([⟨"gout", false, 0, "r", "unknown"⟩] : List Assessment) = []
        then "no_conditions" else "no_valid_conditions") :=
  C2_zero_valid_ratings [⟨"gout", false, 0, "r", "unknown"⟩] [] (by decide)

/-! ## Claim C4 -/

/-- C4: for every ordered list of ratings in `[0, 100]`, the pairwise
rule `combined + next - combined*next/100` keeps the running total in
`[0, 100]`; the rounded (and clamped) final value is in `[0, 100]`; and
appending a positive rating never decreases either the raw or the
rounded-and-clamped combined result. -/
theorem C4_combination_bounded_monotone (rs : List ℚ)
    (h : ∀ r ∈ rs, 0 ≤ r ∧ r ≤ 100) :
    (0 ≤ combineList rs ∧ combineList rs ≤ 100) ∧
    (0 ≤ pyRound (combineList rs) ∧ pyRound (combineList rs) ≤ 100) ∧
    (0 ≤ min 100 (pyRound (combineList rs)) ∧
      min 100 (pyRound (combineList rs)) ≤ 100) ∧
    (∀ x : ℚ, 0 < x → x ≤ 100 →
      combineList rs ≤ combineList (rs ++ [x]) ∧
      min 100 (pyRound (combineList rs)) ≤
        min 100 (pyRound (combineList (rs ++ [x])))) := by
  have hb := combineList_bounds h
  have hr0 : 0 ≤ pyRound (combineList rs) := pyRound_nonneg hb.1
  have hr1 : pyRound (combineList rs) ≤ 100 := by
    have hm := pyRound_mono hb.2
    rwa [pyRound_hundred] at hm
  refine ⟨hb, ⟨hr0, hr1⟩, ⟨le_min (by norm_num) hr0, min_le_left _ _⟩, ?_⟩
  intro x hx0 _
  have hmono := combineList_append_ge h (le_of_lt hx0)
  exact ⟨hmono, min_le_min (le_refl 100) (pyRound_mono hmono)⟩

/-- C4, witness: the list `[30, 40]` (combined value 58) and appended
rating 50. -/
theorem C4_witness :
    (∀ r ∈ ([30, 40] : List ℚ), 0 ≤ r ∧ r ≤ 100) ∧
    ((0 ≤ combineList [30, 40] ∧ combineList [30, 40] ≤ 100) ∧
      (0 ≤ pyRound (combineList [30, 40]) ∧
        pyRound (combineList [30, 40]) ≤ 100) ∧
      (0 ≤ min 100 (pyRound (combineList [30, 40])) ∧
        min 100 (pyRound (combineList [30, 40])) ≤ 100) ∧
      (∀ x : ℚ, 0 < x → x ≤ 100 →
        combineList [30, 40] ≤ combineList ([30, 40] ++ [x]) ∧
        min 100 (pyRound (combineList [30, 40])) ≤
          min 100 (pyRound (combineList ([30, 40] ++ [x]))))) :=
  ⟨by norm_num, C4_combination_bounded_monotone [30, 40] (by norm_num)⟩

/-! ## Claim C5 -/

/-- C5: a case with no pre-existing conditions and exactly one valid
rating `R ≤ 100` combines to exactly `R`, with method
`"single_condition"`, confidence `"high"`, and no pct flag. -/
theorem C5_single_condition (conds : List Assessment) (R : Nat)
    (h : (conds.filter (fun c => c.tod_found)).map (fun c => c.rating) = [R])
    (hR : R ≤ 100) :
    calculate_combined_rating conds [] =
      { total_rating := (R : Int), individual_ratings := [R],
        method := "single_condition", pct_applied := false,
        confidence := "high" } := by
  have hc : conds ≠ [] := by
    intro h0
    rw [h0] at h
    simp at h
  have hmin : min (100 : Int) ((R : Nat) : Int) = ((R : Nat) : Int) :=
    min_eq_right (by exact_mod_cast hR)
  unfold calculate_combined_rating
  rw [if_neg hc, h]
  rw [if_neg (by simp), if_pos (by simp)]
  simp [hmin]

/-- C5, witness: a single resolved condition rated 55. -/
theorem C5_witness :
    calculate_combined_rating [⟨"PTSD", true, 55, "r", "21"⟩] [] =
      { total_rating := (55 : Int), individual_ratings := [55],
        method := "single_condition", pct_applied := false,
        confidence := "high" } :=
  C5_single_condition [⟨"PTSD", true, 55, "r", "21"⟩] 55 (by decide) (by decide)

/-! ## Claim C7 -/

/-- C7: an assessed condition always has rating at most 100 (ratings are
naturals, so at least 0); and when the condition does not resolve
against the reference store, its rating is exactly 0 and the rationale
text mentions the input condition name. -/
theorem C7_unresolved_and_bounds (fz : Fuzz) (index : List IndexEntry)
    (cc : CaseCondition) :
    (assess_condition fz index cc).rating ≤ 100 ∧
    (find_condition fz index cc.name 70 = none →
      (assess_condition fz index cc).tod_found = false ∧
      (assess_condition fz index cc).rating = 0 ∧
      ∃ p s, (assess_condition fz index cc).rationale = p ++ cc.name ++ s) := by
  cases hfc : find_condition fz index cc.name 70 with
  | none =>
    constructor
    · unfold assess_condition
      rw [hfc]
      exact Nat.zero_le 100
    · intro _
      unfold assess_condition
      rw [hfc]
      exact ⟨rfl, rfl, "Condition '", "' not found in VAC ToD 2019", rfl⟩
  | some tod =>
    constructor
    · unfold assess_condition
      rw [hfc]
      show (calculate_basic_rating fz index cc.name cc.severity cc.symptoms).rating ≤ 100
      unfold calculate_basic_rating
      rw [hfc]
      exact Nat.min_le_right _ 100
    · intro habs
      exact absurd habs (by simp)

/-- C7, witness: the empty reference index resolves nothing, so the
assessment of `"gout"` rates 0 with a rationale naming it. -/
theorem C7_witness :
    (assess_condition fzZero [] ⟨"gout", "mild", []⟩).rating ≤ 100 ∧
    ((assess_condition fzZero [] ⟨"gout", "mild", []⟩).tod_found = false ∧
      (assess_condition fzZero [] ⟨"gout", "mild", []⟩).rating = 0 ∧
      ∃ p s, (assess_condition fzZero [] ⟨"gout", "mild", []⟩).rationale =
        p ++ "gout" ++ s) :=
  ⟨(C7_unresolved_and_bounds fzZero [] ⟨"gout", "mild", []⟩).1,
   (C7_unresolved_and_bounds fzZero [] ⟨"gout", "mild", []⟩).2 (by decide)⟩

/-! ## Claim C8 -/

/-- C8, counterexample: the claim says every case with a non-empty
pre-existing list carries `pct_applied = true` and confidence
`"medium"`, but when no condition resolves the early return of
`_calculate_combined_rating` (`vac_canada.py` lines 150-158) is taken
before the pre-existing block: no pct flag, confidence `"low"`. -/
theorem C8_counterexample :
    (calculate_combined_rating [] [⟨"tinnitus", "mild", []⟩]).pct_applied = false ∧
    (calculate_combined_rating [] [⟨"tinnitus", "mild", []⟩]).confidence = "low" ∧
    "low" ≠ "medium" :=
  ⟨by decide, by decide, by decide⟩

/-- C8, amended: the combined percentage never depends on the
pre-existing list; and when the pre-existing list is non-empty *and at
least one condition resolved*, the result carries `pct_applied = true`
and confidence `"medium"`. -/
theorem C8_pct_flag (conds : List Assessment) (pre : List CaseCondition) :
    (calculate_combined_rating conds pre).total_rating =
      (calculate_combined_rating conds []).total_rating ∧
    (pre ≠ [] →
      (conds.filter (fun c => c.tod_found)).map (fun c => c.rating) ≠ [] →
      (calculate_combined_rating conds pre).pct_applied = true ∧
      (calculate_combined_rating conds pre).confidence = "medium") := by
  constructor
  · unfold calculate_combined_rating
    split_ifs <;> rfl
  · intro hpre hr
    have hc : conds ≠ [] := by
      intro h0
      rw [h0] at hr
      simp at hr
    have hpreb : pre.isEmpty = false := by
      cases pre with
      | nil => exact absurd rfl hpre
      | cons p ps => rfl
    unfold calculate_combined_rating
    rw [if_neg hc, if_neg hr]
    by_cases hlen :
        ((conds.filter (fun c => c.tod_found)).map (fun c => c.rating)).length = 1
    · rw [if_pos hlen]
      simp [hpreb]
    · rw [if_neg hlen]
      simp [hpreb]

/-- C8, witness: one resolved condition, one pre-existing condition. -/
theorem C8_witness :
    (calculate_combined_rating [⟨"PTSD", true, 30, "r", "21"⟩]
        [⟨"tinnitus", "mild", []⟩]).total_rating =
      (calculate_combined_rating [⟨"PTSD", true, 30, "r", "21"⟩] []).total_rating ∧
    ((calculate_combined_rating [⟨"PTSD", true, 30, "r", "21"⟩]
        [⟨"tinnitus", "mild", []⟩]).pct_applied = true ∧
      (calculate_combined_rating [⟨"PTSD", true, 30, "r", "21"⟩]
        [⟨"tinnitus", "mild", []⟩]).confidence = "medium") :=
  ⟨(C8_pct_flag [⟨"PTSD", true, 30, "r", "21"⟩] [⟨"tinnitus", "mild", []⟩]).1,
   (C8_pct_flag [⟨"PTSD", true, 30, "r", "21"⟩] [⟨"tinnitus", "mild", []⟩]).2
     (by decide) (by decide)⟩

/-! ## Claim C1 -/

/-- C1, counterexample: the claim says the quality-of-life impact level
is derived from the *total combined rating*.  On a case of two resolved
conditions rated 40 each, the combined rating is 64 — for which the
thresholds give `"moderate_to_severe"` — yet the code reports impact
level `"severe"`, because `_assess_quality_of_life` (`vac_canada.py`
line 217) applies the thresholds to the SUM of the individual ratings
(80), not to the combined rating. -/
theorem C1_counterexample :
    (assess_case fzZero sampleIndex [ccPTSD, ccBack]
      []).quality_of_life_impact.impact_level = "severe" ∧
    (assess_case fzZero sampleIndex [ccPTSD, ccBack]
      []).total_disability_rating = 64 ∧
    impact_level_of 64 = "moderate_to_severe" ∧
    "severe" ≠ "moderate_to_severe" := by
  refine ⟨by decide, ?_, by decide, by decide⟩
  show (calculate_combined_rating
    ([ccPTSD, ccBack].map (assess_condition fzZero sampleIndex)) []).total_rating = 64
  have h40 : (([ccPTSD, ccBack].map (assess_condition fzZero
      sampleIndex)).filter (fun c => c.tod_found)).map (fun c => c.rating) =
      [40, 40] := by decide
  have hconds : ([ccPTSD, ccBack].map (assess_condition fzZero sampleIndex)) ≠ [] := by
    decide
  unfold calculate_combined_rating
  rw [if_neg hconds, h40]
  rw [if_neg (by decide), if_neg (by decide)]
  have hcl : combineList (([40, 40] : List Nat).map (fun n : Nat => (n : ℚ))) = 64 := by
    norm_num [combineList, combineStep]
  rw [hcl]
  norm_num [pyRound]

/-- C1 (amended): the quality-of-life impact level is derived via the
fixed thresholds (≥75 severe, ≥50 moderate_to_severe, ≥25 moderate,
else mild) from the SUM of the individual ratings of the resolved
conditions — the `total_rating` field of the quality-of-life result —
which coincides with the combined rating only when at most one
condition is rated; a sum of 80 yields "severe" and a sum of 20 yields
"mild". -/
theorem C1_impact_level_thresholds (conds : List Assessment) :
    (assess_quality_of_life conds).total_rating =
      ((conds.filter (fun c => c.tod_found)).map (fun c => c.rating)).sum ∧
    ((assess_quality_of_life conds).impact_level = "severe" ↔
      75 ≤ (assess_quality_of_life conds).total_rating) ∧
    ((assess_quality_of_life conds).impact_level = "moderate_to_severe" ↔
      (50 ≤ (assess_quality_of_life conds).total_rating ∧
        (assess_quality_of_life conds).total_rating < 75)) ∧
    ((assess_quality_of_life conds).impact_level = "moderate" ↔
      (25 ≤ (assess_quality_of_life conds).total_rating ∧
        (assess_quality_of_life conds).total_rating < 50)) ∧
    ((assess_quality_of_life conds).impact_level = "mild" ↔
      (assess_quality_of_life conds).total_rating < 25) := by
  have key : ∀ t : Nat,
      (impact_level_of t = "severe" ↔ 75 ≤ t) ∧
      (impact_level_of t = "moderate_to_severe" ↔ (50 ≤ t ∧ t < 75)) ∧
      (impact_level_of t = "moderate" ↔ (25 ≤ t ∧ t < 50)) ∧
      (impact_level_of t = "mild" ↔ t < 25) := by
    intro t
    unfold impact_level_of
    split_ifs with h1 h2 h3
    · exact ⟨⟨fun _ => h1, fun _ => rfl⟩,
        ⟨fun hx => absurd hx (by decide), fun hx => absurd h1 (by omega)⟩,
        ⟨fun hx => absurd hx (by decide), fun hx => absurd h1 (by omega)⟩,
        ⟨fun hx => absurd hx (by decide), fun hx => absurd h1 (by omega)⟩⟩
    · exact ⟨⟨fun hx => absurd hx (by decide), fun hx => absurd hx h1⟩,
        ⟨fun _ => ⟨h2, by omega⟩, fun _ => rfl⟩,
        ⟨fun hx => absurd hx (by decide), fun hx => absurd h2 (by omega)⟩,
        ⟨fun hx => absurd hx (by decide), fun hx => absurd h2 (by omega)⟩⟩
    · exact ⟨⟨fun hx => absurd hx (by decide), fun hx => absurd hx h1⟩,
        ⟨fun hx => absurd hx (by decide), fun hx => absurd hx.1 h2⟩,
        ⟨fun _ => ⟨h3, by omega⟩, fun _ => rfl⟩,
        ⟨fun hx => absurd hx (by decide), fun hx => absurd h3 (by omega)⟩⟩
    · exact ⟨⟨fun hx => absurd hx (by decide), fun hx => absurd hx h1⟩,
        ⟨fun hx => absurd hx (by decide), fun hx => absurd hx.1 h2⟩,
        ⟨fun hx => absurd hx (by decide), fun hx => absurd hx.1 h3⟩,
        ⟨fun _ => by omega, fun _ => rfl⟩⟩
  exact ⟨rfl, (key _).1, (key _).2.1, (key _).2.2.1, (key _).2.2.2⟩

/-- C1, witness: a sum of 80 yields "severe", a sum of 20 yields
"mild". -/
theorem C1_witness :
    (assess_quality_of_life [⟨"a", true, 80, "r", "x"⟩]).impact_level = "severe" ∧
    (assess_quality_of_life [⟨"b", true, 20, "r", "x"⟩]).impact_level = "mild" :=
  ⟨(C1_impact_level_thresholds [⟨"a", true, 80, "r", "x"⟩]).2.1.mpr (by decide),
   (C1_impact_level_thresholds [⟨"b", true, 20, "r", "x"⟩]).2.2.2.2.mpr (by decide)⟩

/-! ## Claim C3 -/

/-- C3: if the lower-cased, trimmed query equals some (non-empty)
indexed term of some condition, `find_condition` returns a condition
having that term — for every scorer `fz` (so regardless of every other
condition's similarity scores) and every threshold.  The empty string is
never an indexed term: the scan skips falsy terms
(`vac_data.py` line 154-155). -/
theorem C3_exact_match_short_circuit (fz : Fuzz) (index : List IndexEntry)
    (name : String) (threshold : Nat) (e : IndexEntry) (he : e ∈ index)
    (hterm : pyStrip (pyLower name) ∈ e.search_terms)
    (hne : pyStrip (pyLower name) ≠ "") :
    ∃ c, find_condition fz index name threshold = some c ∧
      ∃ e', e' ∈ index ∧ e'.condition = c ∧
        pyStrip (pyLower name) ∈ e'.search_terms := by
  have hname : name ≠ "" := by
    intro h0
    apply hne
    rw [h0]
    decide
  have hidx : index ≠ [] := by
    intro h0
    rw [h0] at he
    exact absurd he (List.not_mem_nil e)
  obtain ⟨c, hc⟩ := scanEntries_exact fz (pyStrip (pyLower name)) index
    ⟨none, 0⟩ ⟨e, he, hterm⟩ hne
  obtain ⟨e', he', hce', hmem, _⟩ :=
    scanEntries_error_sound fz (pyStrip (pyLower name)) index ⟨none, 0⟩ c hc
  refine ⟨c, ?_, e', he', hce', hmem⟩
  unfold find_condition
  rw [if_neg (by push_neg; exact ⟨hname, hidx⟩), hc]

/-- C3, witness: the query "PTSD" exactly matches a term of the sample
index entry for PTSD, at threshold 95 and with the all-zero scorer. -/
theorem C3_witness :
    (buildIndexEntry condPTSD ∈ sampleIndex ∧
      pyStrip (pyLower "PTSD") ∈ (buildIndexEntry condPTSD).search_terms ∧
      pyStrip (pyLower "PTSD") ≠ "") ∧
    (∃ c, find_condition fzZero sampleIndex "PTSD" 95 = some c ∧
      ∃ e', e' ∈ sampleIndex ∧ e'.condition = c ∧
        pyStrip (pyLower "PTSD") ∈ e'.search_terms) :=
  ⟨⟨by decide, by decide, by decide⟩,
   C3_exact_match_short_circuit fzZero sampleIndex "PTSD" 95
     (buildIndexEntry condPTSD) (by decide) (by decide) (by decide)⟩

/-! ## Claim C6 -/

/-- C6: for a condition that resolves, the individual rating is
`min(base(severity) + min(2·|symptoms|, 20), 100)`, with the base
severity table minimal=5, mild=10, moderate=30, moderately_severe=50,
severe=70, very_severe=90, total=100, compared after lower-casing, and
default 20 for every unrecognized label; "total" with 10 symptoms rates
exactly 100. -/
theorem C6_basic_rating_formula (fz : Fuzz) (index : List IndexEntry)
    (name severity : String) (symptoms : List String)
    (h : find_condition fz index name 70 ≠ none) :
    (calculate_basic_rating fz index name severity symptoms).rating =
      min (severity_ratings (pyLower severity) +
        min (2 * symptoms.length) 20) 100 ∧
    (pyLower severity = "total" → symptoms.length = 10 →
      (calculate_basic_rating fz index name severity symptoms).rating = 100) ∧
    (severity_ratings "minimal" = 5 ∧ severity_ratings "mild" = 10 ∧
      severity_ratings "moderate" = 30 ∧
      severity_ratings "moderately_severe" = 50 ∧
      severity_ratings "severe" = 70 ∧ severity_ratings "very_severe" = 90 ∧
      severity_ratings "total" = 100) ∧
    (∀ s : String, s ∉ (["minimal", "mild", "moderate", "moderately_severe",
        "severe", "very_severe", "total"] : List String) →
      severity_ratings s = 20) := by
  obtain ⟨c, hc⟩ := Option.ne_none_iff_exists'.mp h
  have hrat : (calculate_basic_rating fz index name severity symptoms).rating =
      min (severity_ratings (pyLower severity) +
        min (symptoms.length * 2) 20) 100 := by
    unfold calculate_basic_rating
    rw [hc]
  refine ⟨?_, ?_, ⟨by decide, by decide, by decide, by decide, by decide,
    by decide, by decide⟩, ?_⟩
  · rw [hrat, Nat.mul_comm symptoms.length 2]
  · intro hsev hlen
    rw [hrat, hsev, hlen]
    decide
  · intro s hs
    simp only [List.mem_cons, List.not_mem_nil, or_false, not_or] at hs
    obtain ⟨h1, h2, h3, h4, h5, h6, h7⟩ := hs
    unfold severity_ratings
    rw [if_neg h1, if_neg h2, if_neg h3, if_neg h4, if_neg h5, if_neg h6,
      if_neg h7]

/-- C6, witness: "PTSD" resolves against the sample index and, at
severity "total" with 10 symptoms, rates exactly 100. -/
theorem C6_witness :
    find_condition fzZero sampleIndex "PTSD" 70 ≠ none ∧
    (calculate_basic_rating fzZero sampleIndex "PTSD" "total"
      ["a1", "a2", "a3", "a4", "a5", "a6", "a7", "a8", "a9", "a10"]).rating = 100 :=
  ⟨by decide,
   (C6_basic_rating_formula fzZero sampleIndex "PTSD" "total"
     ["a1", "a2", "a3", "a4", "a5", "a6", "a7", "a8", "a9", "a10"]
     (by decide)).2.1 (by decide) (by decide)⟩

/-! ## Claim C9 -/

/-- C9: raising the inclusion threshold of `search_conditions` (the
literal 50 of the source, generalised in `search_conditions_at`) can
only shrink or preserve the match set: every result under a higher
threshold is also a result under any lower threshold, for every query,
chapter filter and limit; and `search_conditions` is exactly the
generalised search at threshold 50. -/
theorem C9_threshold_monotone (fz : Fuzz) (conds : List Condition)
    (t1 t2 : Nat) (query : String) (chapter : Option String) (limit : Nat)
    (x : SearchResult) (hth : t1 ≤ t2)
    (hx : x ∈ search_conditions_at fz conds t2 query chapter limit) :
    x ∈ search_conditions_at fz conds t1 query chapter limit ∧
    search_conditions fz conds query chapter limit =
      search_conditions_at fz conds 50 query chapter limit := by
  refine ⟨?_, rfl⟩
  unfold search_conditions_at at hx ⊢
  by_cases hq : query = ""
  · rw [if_pos hq] at hx
    exact absurd hx (List.not_mem_nil x)
  · rw [if_neg hq] at hx ⊢
    rw [search_filterMap_monotone fz (pyStrip (pyLower query)) chapter hth conds,
      sortByScoreDesc_filter] at hx
    exact mem_take_filter _ limit x (sortByScoreDesc_scoreDesc _) hx

/-- C9, witness: with a constant partial-ratio of 70, the PTSD entry is
returned at inclusion threshold 60 and therefore also at 30. -/
theorem C9_witness :
    (30 : Nat) ≤ 60 ∧
    (⟨condPTSD, 70⟩ : SearchResult) ∈
      search_conditions_at fzSeventy [condPTSD] 60 "ptsd" none 10 ∧
    ((⟨condPTSD, 70⟩ : SearchResult) ∈
      search_conditions_at fzSeventy [condPTSD] 30 "ptsd" none 10 ∧
      search_conditions fzSeventy [condPTSD] "ptsd" none 10 =
        search_conditions_at fzSeventy [condPTSD] 50 "ptsd" none 10) :=
  ⟨by norm_num, by decide,
   C9_threshold_monotone fzSeventy [condPTSD] 30 60 "ptsd" none 10
     ⟨condPTSD, 70⟩ (by norm_num) (by decide)⟩

/-! ## Claim C10 -/

/-- C10: the functional-limitations list is ascending-sorted and
duplicate-free; a tag belongs to it exactly when some condition of the
case resolved, is rated at least 50, and carries that tag in the
limitation set of the first matching category of its lower-cased name;
and the category chain is short-circuiting — a name containing a
mental-health term always contributes the mental-health set, whatever
other category terms it also contains. -/
theorem C10_functional_limitations (conds : List Assessment) :
    (assess_functional_limitations conds).Sorted (· ≤ ·) ∧
    (assess_functional_limitations conds).Nodup ∧
    (∀ x, x ∈ assess_functional_limitations conds ↔
      ∃ c ∈ conds, c.tod_found = true ∧ 50 ≤ c.rating ∧
        x ∈ category_limitations (pyLower c.condition)) ∧
    (∀ nm : String, mental_terms.any (fun t => strContainsSub nm t) = true →
      category_limitations nm =
        ["concentration", "memory", "social_interaction", "decision_making"]) := by
  refine ⟨?_, ?_, ?_, ?_⟩
  · exact Finset.sort_sorted _ _
  · exact Finset.sort_nodup _ _
  · intro x
    unfold assess_functional_limitations
    rw [Finset.mem_sort, mem_foldl_limitations]
    simp only [Finset.not_mem_empty, false_or]
    constructor
    · rintro ⟨c, hc, hq, hx⟩
      rw [Bool.and_eq_true, decide_eq_true_eq] at hq
      exact ⟨c, hc, hq.1, hq.2, hx⟩
    · rintro ⟨c, hc, h1, h2, hx⟩
      refine ⟨c, hc, ?_, hx⟩
      rw [Bool.and_eq_true, decide_eq_true_eq]
      exact ⟨h1, h2⟩
  · intro nm hnm
    unfold category_limitations
    rw [if_pos hnm]

/-- C10, witness: a single resolved condition "chronic back pain" rated
60 produces a sorted, duplicate-free list; "mobility" is in it; and a
name containing both "depression" and "back" takes the mental-health
set. -/
theorem C10_witness :
    (assess_functional_limitations
      [⟨"chronic back pain", true, 60, "r", "17"⟩]).Sorted (· ≤ ·) ∧
    (assess_functional_limitations
      [⟨"chronic back pain", true, 60, "r", "17"⟩]).Nodup ∧
    ("mobility" ∈ assess_functional_limitations
        [⟨"chronic back pain", true, 60, "r", "17"⟩] ↔
      ∃ c ∈ ([⟨"chronic back pain", true, 60, "r", "17"⟩] : List Assessment),
        c.tod_found = true ∧ 50 ≤ c.rating ∧
          "mobility" ∈ category_limitations (pyLower c.condition)) ∧
    category_limitations "depression and back pain" =
      ["concentration", "memory", "social_interaction", "decision_making"] :=
  ⟨(C10_functional_limitations
      [⟨"chronic back pain", true, 60, "r", "17"⟩]).1,
   (C10_functional_limitations
      [⟨"chronic back pain", true, 60, "r", "17"⟩]).2.1,
   (C10_functional_limitations
      [⟨"chronic back pain", true, 60, "r", "17"⟩]).2.2.1 "mobility",
   (C10_functional_limitations
      [⟨"chronic back pain", true, 60, "r", "17"⟩]).2.2.2
     "depression and back pain" (by decide)⟩

end VAC
